import Mathlib

/-!
Shallow embedding of the CompressedSet repository (CompressedSet.js,
NibbleView.js, Base64.js).

Buffers (`ArrayBuffer`) are modelled as `List Nat` with every element < 256
(writes go through `% 256`, mirroring `DataView.setUint8`'s `ToUint8`).
JavaScript exceptions are modelled with `JSError`; operations that can both
mutate and throw return the error (if any) together with the post-state, since
a thrown `RangeError` in the middle of a `forEach` write loop leaves the
already-written bytes in place.

The hash `CompressedSet.hash` delegates to the external `imurmurhash`
library, which is not part of this repository; it is modelled as an explicit
function parameter `hash : String → Nat` (JavaScript's `MurmurHash3(v).result()`
returns an unsigned 32-bit number; bitwise masking in the engine is modelled
with `jsAnd32`, which applies the 32-bit truncation JavaScript's `&` performs).
Concrete sample hash functions are provided for witnesses.
-/

set_option maxRecDepth 8000

namespace CompressedSet

/-- JavaScript error values thrown by the modelled code: `TypeError` with its
message, and `RangeError` for out-of-bounds `DataView` accesses and
constructions. -/
inductive JSError where
  | typeError (msg : String)
  | rangeError
deriving DecidableEq

namespace NibbleView

/-- NibbleView.getFirst: `this.view.getUint8(0) >> 4` on the viewed byte. -/
def getFirst (b : Nat) : Nat := b >>> 4

/-- NibbleView.getSecond: `this.view.getUint8(0) & (255 >> 4)`. -/
def getSecond (b : Nat) : Nat := b &&& (255 >>> 4)

/-- NibbleView.setFirst: `setUint8(0, ((v << 4) | this.getSecond()) & 255)`;
returns the new byte value. -/
def setFirst (b v : Nat) : Nat := ((v <<< 4) ||| getSecond b) &&& 255

/-- NibbleView.setSecond: `setUint8(0, (this.getFirst() << 4) | (v & 15))`;
returns the new byte value (`setUint8` additionally truncates mod 256, which
is a no-op here since both halves are below 16). -/
def setSecond (b v : Nat) : Nat := ((getFirst b) <<< 4) ||| (v &&& 15)

end NibbleView

namespace Constants

def DEFAULT_P : Nat := 2
def DEFAULT_Q : Nat := 1
def DEFAULT_NUM_VALUES : Nat := 256
def DEFAULT_BYTES_PER_VALUE : Nat := 3
def V_BITS : Nat := 4
def P_BITS : Nat := 4
def Q_BITS : Nat := 4

/-- Constants.MINIMUM_BYTE_LENGTH = `Math.ceil((V_BITS + P_BITS + Q_BITS) / 8)`,
written as ceiling division on naturals. -/
def MINIMUM_BYTE_LENGTH : Nat := (V_BITS + P_BITS + Q_BITS + 7) / 8

end Constants

/-- CompressedSet._readBytes: big-endian accumulation
`acc | (view.getUint8(i) << ((bytes - i - 1) * 8))` over `i < bytes`, where the
view starts at byte `off` of the buffer. -/
def readBytes (buf : List Nat) (off bytes : Nat) : Nat :=
  (List.range bytes).foldl
    (fun acc i => acc ||| ((buf.getD (off + i) 0) <<< ((bytes - i - 1) * 8))) 0

/-- One CompressedSet instance: the owned buffer plus the fields the JS
constructor caches on `this` (`config.V/p/q`, `indexMask`, `valueMask`).
`numValues` and `bytesPerValue` are getters re-read from the buffer. -/
structure CSet where
  buffer : List Nat
  V : Nat
  p : Nat
  q : Nat
  indexMask : Int
  valueMask : Nat
deriving DecidableEq

/-- Byte offset of `valuesView` inside the buffer:
`MINIMUM_BYTE_LENGTH + p + q`. -/
def CSet.valuesOffset (S : CSet) : Nat := Constants.MINIMUM_BYTE_LENGTH + S.p + S.q

/-- Getter `numValues`: `_readBytes(this.numValuesView, this.config.p)`. -/
def CSet.numValues (S : CSet) : Nat :=
  readBytes S.buffer Constants.MINIMUM_BYTE_LENGTH S.p

/-- Getter `bytesPerValue`: `_readBytes(this.bytesPerValueView, this.config.q)`. -/
def CSet.bytesPerValue (S : CSet) : Nat :=
  readBytes S.buffer (Constants.MINIMUM_BYTE_LENGTH + S.p) S.q

/-- JavaScript `h & m` where `h` is a non-negative number (hash output) and `m`
a possibly negative mask (`indexMask` is `numValues - 1`, which is `-1` when
`numValues = 0`): both operands are truncated to 32 bits first. -/
def jsAnd32 (h : Nat) (m : Int) : Nat :=
  Nat.land (h % 2 ^ 32) ((m % (2:Int) ^ 32).toNat)

/-- JavaScript `n.toString(16)` for a non-negative number: minimal lower-case
hex digits, `"0"` for zero. -/
def natToHex (n : Nat) : String := String.mk (Nat.toDigits 16 n)

/-- CompressedSet._kv: `k = (hash & indexMask) * bytesPerValue`,
`v = hash(hash.toString(16)) & valueMask`. -/
def CSet.kv (hash : String → Nat) (S : CSet) (entry : String) : Nat × Nat :=
  let h := hash entry
  let k := jsAnd32 h S.indexMask * S.bytesPerValue
  let v := jsAnd32 (hash (natToHex h)) ((S.valueMask : Int))
  (k, v)

/-- CompressedSet._vs: split `v` into `bytesPerValue` big-endian bytes,
`vs[i] = (v >> ((bytesPerValue - i - 1) * 8)) & 255`. -/
def CSet.vs (S : CSet) (v : Nat) : List Nat :=
  (List.range S.bytesPerValue).map
    (fun i => (v >>> ((S.bytesPerValue - i - 1) * 8)) &&& 255)

/-- Sequential `view.setUint8(base + i, b)` writes of a byte list, starting at
loop index `i`.  An out-of-bounds write raises `RangeError`; bytes written by
earlier iterations remain in place, so the (possibly partial) post-state is
returned alongside the error. -/
def writeSeq : List Nat → Nat → Nat → List Nat → Option JSError × List Nat
  | buf, _, _, [] => (none, buf)
  | buf, base, i, b :: rest =>
    if base + i < buf.length then
      writeSeq (buf.set (base + i) (b % 256)) base (i + 1) rest
    else (some .rangeError, buf)

/-- The `every((vByte, i) => view.getUint8(base + i) === vByte)` loop of
`contains`: short-circuits on the first mismatch; an out-of-bounds read raises
`RangeError`. -/
def containsGo : List Nat → Nat → Nat → List Nat → Except JSError Bool
  | _, _, _, [] => .ok true
  | buf, base, i, b :: rest =>
    match buf[base + i]? with
    | some x => if x = b then containsGo buf base (i + 1) rest else .ok false
    | none => .error .rangeError

/-- CompressedSet.contains on a string entry (the `_check` type guard lives in
the `JSVal` wrappers below). -/
def CSet.contains (hash : String → Nat) (S : CSet) (entry : String) :
    Except JSError Bool :=
  let kvp := S.kv hash entry
  containsGo S.buffer (S.valuesOffset + kvp.1) 0 (S.vs kvp.2)

/-- CompressedSet.add on a string entry: write the fingerprint bytes into the
slot at byte offset `k` of the value region. -/
def CSet.add (hash : String → Nat) (S : CSet) (entry : String) :
    Option JSError × CSet :=
  let kvp := S.kv hash entry
  let r := writeSeq S.buffer (S.valuesOffset + kvp.1) 0 (S.vs kvp.2)
  (r.1, { S with buffer := r.2 })

/-- CompressedSet.remove on a string entry: only zero the slot if
`contains(entry)` currently holds. -/
def CSet.remove (hash : String → Nat) (S : CSet) (entry : String) :
    Option JSError × CSet :=
  match S.contains hash entry with
  | .error e => (some e, S)
  | .ok true =>
    let kvp := S.kv hash entry
    let r := writeSeq S.buffer (S.valuesOffset + kvp.1) 0
      ((S.vs kvp.2).map (fun _ => 0))
    (r.1, { S with buffer := r.2 })
  | .ok false => (none, S)

/-- JavaScript values that can be passed to the public API: strings plus the
non-string argument shapes the spec names (boolean, number, plain object,
array), `ArrayBuffer`s (as raw byte lists) and `undefined`. -/
inductive JSVal where
  | vstr (s : String)
  | vbool (b : Bool)
  | vnum (n : Int)
  | vobj
  | varr
  | vbuf (bytes : List Nat)
  | vundef
deriving DecidableEq

/-- JavaScript truthiness of the modelled values (`if (buffer)`): empty string,
`false`, `0` and `undefined` are falsy; objects (including ArrayBuffers and
arrays) are truthy. -/
def JSVal.truthy : JSVal → Bool
  | .vstr s => s.length != 0
  | .vbool b => b
  | .vnum n => n != 0
  | .vobj => true
  | .varr => true
  | .vbuf _ => true
  | .vundef => false

/-- Whether `typeof entry === "string"`. -/
def JSVal.isString : JSVal → Bool
  | .vstr _ => true
  | _ => false

/-- Message of the `_check` TypeError. -/
def typeErrMsg : String := "CompressedSet can only store string values"

/-- CompressedSet.add with the `_check(entry)` type guard: a non-string
argument throws before anything is computed or written. -/
def addJS (hash : String → Nat) (S : CSet) (e : JSVal) : Option JSError × CSet :=
  match e with
  | .vstr s => S.add hash s
  | _ => (some (.typeError typeErrMsg), S)

/-- CompressedSet.remove with the `_check(entry)` type guard. -/
def removeJS (hash : String → Nat) (S : CSet) (e : JSVal) : Option JSError × CSet :=
  match e with
  | .vstr s => S.remove hash s
  | _ => (some (.typeError typeErrMsg), S)

/-- CompressedSet.contains with the `_check(entry)` type guard (contains never
mutates the buffer). -/
def containsJS (hash : String → Nat) (S : CSet) (e : JSVal) : Except JSError Bool :=
  match e with
  | .vstr s => S.contains hash s
  | _ => .error (.typeError typeErrMsg)

/-- The CompressedSet constructor's "from buffer" path: length validation
against `MINIMUM_BYTE_LENGTH`, nibble parse of `V`, `p`, `q`, creation of the
three `DataView`s (whose constructors raise `RangeError` when
`offset + length` exceeds the buffer), then derivation of `indexMask` and
`valueMask` from the freshly parsed size fields. -/
def fromBuffer (buf : List Nat) : Except JSError CSet :=
  if buf.length < Constants.MINIMUM_BYTE_LENGTH then
    .error (.typeError
      ("ArrayBuffer argument to CompressedSet constructor must have a byteLength of at least "
        ++ toString Constants.MINIMUM_BYTE_LENGTH))
  else
    let V := NibbleView.getFirst (buf.getD 0 0)
    let p := NibbleView.getFirst (buf.getD 1 0)
    let q := NibbleView.getSecond (buf.getD 1 0)
    if Constants.MINIMUM_BYTE_LENGTH + p > buf.length then
      .error .rangeError
    else if Constants.MINIMUM_BYTE_LENGTH + p + q > buf.length then
      .error .rangeError
    else
      let numValues := readBytes buf Constants.MINIMUM_BYTE_LENGTH p
      let bytesPerValue := readBytes buf (Constants.MINIMUM_BYTE_LENGTH + p) q
      .ok { buffer := buf, V := V, p := p, q := q,
            indexMask := (numValues : Int) - 1,
            valueMask := 2 ^ (bytesPerValue * 8) - 1 }

/-- The constructor's fresh path (`new CompressedSet()`): allocate the default
`getBuffer()` (zeroed), write `p`/`q` nibbles, read the config, write
`version = 1` and the default `numValues`/`bytesPerValue` size fields
(`setUint16(0, 256)` big-endian and `setUint8(0, 3)`), then derive the masks.
The cached `config.V` is read before `vView.setFirst(1)` runs, so it is 0. -/
def freshDefault : CSet :=
  let buf0 := List.replicate
    (Constants.MINIMUM_BYTE_LENGTH + Constants.DEFAULT_P + Constants.DEFAULT_Q
      + Constants.DEFAULT_NUM_VALUES * Constants.DEFAULT_BYTES_PER_VALUE) 0
  let buf1 := buf0.set 1 (NibbleView.setFirst (buf0.getD 1 0) Constants.DEFAULT_P)
  let buf2 := buf1.set 1 (NibbleView.setSecond (buf1.getD 1 0) Constants.DEFAULT_Q)
  let V := NibbleView.getFirst (buf2.getD 0 0)
  let p := NibbleView.getFirst (buf2.getD 1 0)
  let q := NibbleView.getSecond (buf2.getD 1 0)
  let buf3 := buf2.set 0 (NibbleView.setFirst (buf2.getD 0 0) 1)
  let buf4 := buf3.set 1 (NibbleView.setFirst (buf3.getD 1 0) p)
  let buf5 := buf4.set 1 (NibbleView.setSecond (buf4.getD 1 0) q)
  let buf6 := (buf5.set Constants.MINIMUM_BYTE_LENGTH
      ((Constants.DEFAULT_NUM_VALUES >>> 8) % 256)).set
      (Constants.MINIMUM_BYTE_LENGTH + 1) (Constants.DEFAULT_NUM_VALUES % 256)
  let buf7 := buf6.set (Constants.MINIMUM_BYTE_LENGTH + p)
      (Constants.DEFAULT_BYTES_PER_VALUE % 256)
  let numValues := readBytes buf7 Constants.MINIMUM_BYTE_LENGTH p
  let bytesPerValue := readBytes buf7 (Constants.MINIMUM_BYTE_LENGTH + p) q
  { buffer := buf7, V := V, p := p, q := q,
    indexMask := (numValues : Int) - 1,
    valueMask := 2 ^ (bytesPerValue * 8) - 1 }

/-- The full constructor `new CompressedSet(arg)`: a truthy non-ArrayBuffer
argument is rejected with a TypeError; a truthy ArrayBuffer goes through the
from-buffer path; a falsy argument (`undefined`, `null`, `0`, `false`, `""`)
selects the fresh default path via `buffer || this.getBuffer()`. -/
def construct (arg : JSVal) : Except JSError CSet :=
  if arg.truthy then
    match arg with
    | .vbuf bytes => fromBuffer bytes
    | _ => .error (.typeError
        "First argument to CompressedSet constructor must be an ArrayBuffer")
  else .ok freshDefault

/-- URL-safe base64 alphabet (standard alphabet with `-` and `_` replacing
`+` and `/`, as produced by urlsafe-base64's post-encoding replacement). -/
def b64Table : List Char :=
  "ABCDEFGHIJKLMNOPQRSTUVWXYZabcdefghijklmnopqrstuvwxyz0123456789-_".data

def b64Chr (n : Nat) : Char := b64Table.getD n 'A'

def b64Val (c : Char) : Nat := b64Table.indexOf c

/-- Unpadded base64 rendering of a byte list (urlsafe-base64 strips the `=`
padding that Node's encoder would append). -/
def b64encodeBytes : List Nat → List Char
  | [] => []
  | [a] => [b64Chr (a >>> 2), b64Chr ((a &&& 3) <<< 4)]
  | [a, b] => [b64Chr (a >>> 2), b64Chr (((a &&& 3) <<< 4) ||| (b >>> 4)),
      b64Chr ((b &&& 15) <<< 2)]
  | a :: b :: c :: rest =>
    b64Chr (a >>> 2) :: b64Chr (((a &&& 3) <<< 4) ||| (b >>> 4)) ::
    b64Chr (((b &&& 15) <<< 2) ||| (c >>> 6)) :: b64Chr (c &&& 63) ::
    b64encodeBytes rest

/-- Base64 decoding of an unpadded digest back to bytes (a trailing lone
character carries no full byte and is dropped, as Node does). -/
def b64decodeChars : List Char → List Nat
  | [] => []
  | [_] => []
  | [c1, c2] => [((b64Val c1) <<< 2) ||| ((b64Val c2) >>> 4)]
  | [c1, c2, c3] => [((b64Val c1) <<< 2) ||| ((b64Val c2) >>> 4),
      (((b64Val c2) &&& 15) <<< 4) ||| ((b64Val c3) >>> 2)]
  | c1 :: c2 :: c3 :: c4 :: rest =>
    (((b64Val c1) <<< 2) ||| ((b64Val c2) >>> 4)) ::
    ((((b64Val c2) &&& 15) <<< 4) ||| ((b64Val c3) >>> 2)) ::
    ((((b64Val c3) &&& 3) <<< 6) ||| (b64Val c4)) ::
    b64decodeChars rest

namespace Base64

/-- Base64.encode: URL-safe base64 over the UTF-8 bytes of the (ASCII hex)
string. -/
def encode (s : String) : String := String.mk (b64encodeBytes (s.data.map Char.toNat))

/-- Base64.decode: base64-decode, then `toString("ascii")` (Node masks each
byte to 7 bits). -/
def decode (s : String) : String :=
  String.mk ((b64decodeChars s.data).map (fun b => Char.ofNat (b % 128)))

end Base64

/-- Two lower-case hex characters of one byte
(`Buffer.toString("hex")` rendering). -/
def byteToHexChars (b : Nat) : List Char :=
  [Nat.digitChar (b / 16 % 16), Nat.digitChar (b % 16)]

/-- Hex rendering of the whole buffer. -/
def bufferToHex (buf : List Nat) : String :=
  String.mk (buf.map byteToHexChars).flatten

/-- CompressedSet.encode:
`Base64.encode(Buffer.from(this.buffer).toString("hex"))`. -/
def CSet.encode (S : CSet) : String := Base64.encode (bufferToHex S.buffer)

/-- Value of one hex digit, accepting both cases as `parseInt(_, 16)` does. -/
def hexDigitVal? (c : Char) : Option Nat :=
  if '0' ≤ c ∧ c ≤ '9' then some (c.toNat - 48)
  else if 'a' ≤ c ∧ c ≤ 'f' then some (c.toNat - 87)
  else if 'A' ≤ c ∧ c ≤ 'F' then some (c.toNat - 55)
  else none

/-- JavaScript `parseInt(c1 + c2, 16)` followed by `setUint8`'s NaN-to-0
coercion: a non-hex first character yields NaN hence 0; a non-hex second
character stops the parse after one digit. -/
def parseHexPair (c1 c2 : Char) : Nat :=
  match hexDigitVal? c1 with
  | none => 0
  | some d1 =>
    match hexDigitVal? c2 with
    | none => d1
    | some d2 => d1 * 16 + d2

/-- The decode loop exactly as written in the source:
`for (let i = 0; i < byteLength; i += 2) view.setUint8(i, parseInt(digest[i] + digest[i+1], 16))`.
The loop variable steps by two, is compared against `byteLength`, and is used
both as the byte index to write and as the character index to read.  `fuel`
(passed as `byteLength`, an upper bound on the iteration count) only drives
structural recursion; the `i < byteLength` test governs termination as in the
source. -/
def decodeLoop : Nat → List Char → Nat → List Nat → Nat → List Nat
  | 0, _, _, buf, _ => buf
  | fuel + 1, digest, byteLength, buf, i =>
    if i < byteLength then
      decodeLoop fuel digest byteLength
        (buf.set i (parseHexPair (digest.getD i '\x00') (digest.getD (i + 1) '\x00')))
        (i + 2)
    else buf

/-- The buffer built by `CompressedSet.decode` before the constructor call:
base64-decode the digest, allocate `digest.length / 2` zeroed bytes, then run
the decode loop. -/
def decodeRaw (encodedDigest : String) : List Nat :=
  let digest := Base64.decode encodedDigest
  let byteLength := digest.length / 2
  decodeLoop byteLength digest.data byteLength (List.replicate byteLength 0) 0

/-- CompressedSet.decode: build the buffer, then construct through the same
from-buffer validation/parsing path as direct construction. -/
def decode (encodedDigest : String) : Except JSError CSet :=
  fromBuffer (decodeRaw encodedDigest)

/-- Projection used to state facts about a successfully decoded set. -/
def okSet : Except JSError CSet → Option CSet
  | .ok S => some S
  | .error _ => none

/-- Sample hash for witnesses: string length (imurmurhash itself is external
to the repository). -/
def hashLen : String → Nat := fun s => s.length

/-- Sample hash for witnesses: constant zero, giving every key the all-zero
fingerprint. -/
def hashZero : String → Nat := fun _ => 0

/-- Sample hash for witnesses: sends "a" and "b" to the same slot (0 and 256
agree on the low 8 bits) with distinct fingerprints (7 and 9). -/
def hashColl : String → Nat := fun s =>
  if s = "b" then 256 else if s = "0" then 7 else if s = "100" then 9 else 0

/-- The set constructed from the 5-byte buffer `[16, 33, 1, 0, 3]`: it holds
only the header and size fields while declaring `numValues = 256`,
`bytesPerValue = 3` (773 bytes required), so every slot lies past the end of
the buffer. -/
def shortSample : CSet :=
  { buffer := [16, 33, 1, 0, 3], V := 1, p := 2, q := 1,
    indexMask := 255, valueMask := 16777215 }

/-- Shape facts shared by every set reachable from `freshDefault` by add and
remove: default header fields, masks, buffer length, and the stored
`bytesPerValue` byte. -/
def defaultShape (S : CSet) : Prop :=
  S.p = 2 ∧ S.q = 1 ∧ S.indexMask = 255 ∧ S.valueMask = 16777215 ∧
  S.buffer.length = 773 ∧ S.buffer[4]? = some 3

/-- Derived form of the slot byte offset `k` computed by `_kv` under the
default configuration (`indexMask = 255`, `bytesPerValue = 3`). -/
def slotOf (hash : String → Nat) (x : String) : Nat := hash x % 2 ^ 32 % 256 * 3

/-- Derived form of the fingerprint `v` computed by `_kv` under the default
configuration (`valueMask = 2^24 - 1`). -/
def fpOf (hash : String → Nat) (x : String) : Nat :=
  hash (natToHex (hash x)) % 2 ^ 32 % 16777216

/-- Derived form of `_vs(v)` under the default configuration
(`bytesPerValue = 3`): the three big-endian bytes of the fingerprint. -/
def fp3 (v : Nat) : List Nat :=
  [(v >>> 16) &&& 255, (v >>> 8) &&& 255, v &&& 255]

instance {ε α : Type} [DecidableEq ε] [DecidableEq α] : DecidableEq (Except ε α) :=
  fun a b =>
    match a, b with
    | .ok x, .ok y => if h : x = y then .isTrue (by rw [h]) else .isFalse (by simp [h])
    | .error x, .error y => if h : x = y then .isTrue (by rw [h]) else .isFalse (by simp [h])
    | .ok _, .error _ => .isFalse (by simp)
    | .error _, .ok _ => .isFalse (by simp)

theorem land255 (x : Nat) : x &&& 255 = x % 256 := by
  have h := Nat.and_pow_two_sub_one_eq_mod x 8
  norm_num at h
  exact h

theorem land15 (x : Nat) : x &&& 15 = x % 16 := by
  have h := Nat.and_pow_two_sub_one_eq_mod x 4
  norm_num at h
  exact h

theorem landFp (x : Nat) : x &&& 16777215 = x % 16777216 := by
  have h := Nat.and_pow_two_sub_one_eq_mod x 24
  norm_num at h
  exact h

theorem tb15 (i : Nat) : Nat.testBit 15 i = decide (i < 4) := by
  have h := Nat.testBit_two_pow_sub_one 4 i
  norm_num at h
  exact h

theorem tb255 (i : Nat) : Nat.testBit 255 i = decide (i < 8) := by
  have h := Nat.testBit_two_pow_sub_one 8 i
  norm_num at h
  exact h

theorem tbMod16 (x i : Nat) : Nat.testBit (x % 16) i = (decide (i < 4) && Nat.testBit x i) := by
  have h := Nat.testBit_mod_two_pow x 4 i
  norm_num at h
  exact h

theorem jsAnd32_255 (h : Nat) : jsAnd32 h 255 = h % 2 ^ 32 % 256 := by
  unfold jsAnd32
  have h1 : (((255:Int) % (2:Int) ^ 32).toNat) = 255 := by decide
  rw [h1]
  exact land255 _

theorem jsAnd32_fp (h : Nat) :
    jsAnd32 h ((16777215 : Nat) : Int) = h % 2 ^ 32 % 16777216 := by
  unfold jsAnd32
  have h1 : ((((16777215 : Nat) : Int) % (2:Int) ^ 32).toNat) = 16777215 := by decide
  rw [h1]
  exact landFp _

theorem writeSeq_length (vs : List Nat) :
    ∀ (buf : List Nat) (base i : Nat),
      ((writeSeq buf base i vs).2).length = buf.length := by
  induction vs with
  | nil => intro buf base i; rfl
  | cons b rest ih =>
    intro buf base i
    unfold writeSeq
    by_cases h : base + i < buf.length
    · simp only [if_pos h, ih, List.length_set]
    · simp only [if_neg h]

theorem writeSeq_getElem?_lt (vs : List Nat) :
    ∀ (buf : List Nat) (base i j : Nat), j < base + i →
      ((writeSeq buf base i vs).2)[j]? = buf[j]? := by
  induction vs with
  | nil => intro buf base i j _; rfl
  | cons b rest ih =>
    intro buf base i j hj
    unfold writeSeq
    by_cases h : base + i < buf.length
    · simp only [if_pos h]
      rw [ih _ _ _ _ (by omega)]
      exact List.getElem?_set_ne (by omega)
    · simp only [if_neg h]

theorem write_contains (vs : List Nat) :
    ∀ (buf : List Nat) (base i : Nat),
      base + i + vs.length ≤ buf.length → (∀ b ∈ vs, b < 256) →
      (writeSeq buf base i vs).1 = none ∧
      containsGo (writeSeq buf base i vs).2 base i vs = .ok true := by
  induction vs with
  | nil => intro buf base i _ _; exact ⟨rfl, rfl⟩
  | cons b rest ih =>
    intro buf base i hlen hb
    have hlt : base + i < buf.length := by
      simp only [List.length_cons] at hlen; omega
    have hb256 : b % 256 = b := Nat.mod_eq_of_lt (hb b (by simp))
    have hrl : base + (i + 1) + rest.length ≤ (buf.set (base + i) (b % 256)).length := by
      simp only [List.length_set, List.length_cons] at hlen ⊢; omega
    obtain ⟨ih1, ih2⟩ := ih (buf.set (base + i) (b % 256)) base (i + 1) hrl
      (fun x hx => hb x (by simp [hx]))
    have hread : ((writeSeq (buf.set (base + i) (b % 256)) base (i + 1) rest).2)[base + i]? = some b := by
      rw [writeSeq_getElem?_lt rest _ _ _ _ (by omega)]
      rw [List.getElem?_set_self hlt, hb256]
    constructor
    · unfold writeSeq
      simp only [if_pos hlt]
      exact ih1
    · unfold writeSeq containsGo
      simp only [if_pos hlt, hread, if_pos rfl]
      exact ih2

theorem write_contains_ne (vsx : List Nat) :
    ∀ (vsy buf : List Nat) (base i : Nat),
      base + i + vsy.length ≤ buf.length →
      vsx.length = vsy.length → (∀ b ∈ vsy, b < 256) → vsx ≠ vsy →
      containsGo (writeSeq buf base i vsy).2 base i vsx = .ok false := by
  induction vsx with
  | nil =>
    intro vsy buf base i _ hlen _ hne
    cases vsy with
    | nil => exact absurd rfl hne
    | cons c cs => simp at hlen
  | cons a as ih =>
    intro vsy buf base i hbd hlen h256 hne
    cases vsy with
    | nil => simp at hlen
    | cons b bs =>
      have hlt : base + i < buf.length := by
        simp only [List.length_cons] at hbd; omega
      have hb256 : b % 256 = b := Nat.mod_eq_of_lt (h256 b (by simp))
      have hread : ((writeSeq (buf.set (base + i) (b % 256)) base (i + 1) bs).2)[base + i]? = some b := by
        rw [writeSeq_getElem?_lt bs _ _ _ _ (by omega)]
        rw [List.getElem?_set_self hlt, hb256]
      unfold writeSeq containsGo
      simp only [if_pos hlt, hread]
      by_cases hab : b = a
      · subst hab
        simp only [if_pos rfl]
        have hne' : as ≠ bs := fun hh => hne (by rw [hh])
        exact ih bs (buf.set (base + i) (b % 256)) base (i + 1)
          (by simp only [List.length_set, List.length_cons] at hbd ⊢; omega)
          (by simpa using hlen) (fun x hx => h256 x (by simp [hx])) hne'
      · simp only [if_neg hab]

theorem writeSeq_err (vs : List Nat) :
    ∀ (buf : List Nat) (base i : Nat),
      buf.length < base + i + vs.length → vs ≠ [] →
      (writeSeq buf base i vs).1 = some .rangeError := by
  induction vs with
  | nil => intro buf base i _ hne; exact absurd rfl hne
  | cons b rest ih =>
    intro buf base i hlt _
    simp only [List.length_cons] at hlt
    unfold writeSeq
    by_cases h : base + i < buf.length
    · simp only [if_pos h]
      cases rest with
      | nil => exact absurd h (by simp at hlt; omega)
      | cons c cs =>
        exact ih _ base (i + 1)
          (by simp only [List.length_set, List.length_cons] at hlt ⊢; omega) (by simp)
    · simp only [if_neg h]

theorem containsGo_oob (vs : List Nat) :
    ∀ (buf : List Nat) (base i : Nat),
      buf.length < base + i + vs.length → vs ≠ [] →
      containsGo buf base i vs = .error .rangeError ∨
      containsGo buf base i vs = .ok false := by
  induction vs with
  | nil => intro buf base i _ hne; exact absurd rfl hne
  | cons b rest ih =>
    intro buf base i hlt _
    simp only [List.length_cons] at hlt
    unfold containsGo
    cases hx : buf[base + i]? with
    | none => exact Or.inl rfl
    | some x =>
      obtain ⟨hin, -⟩ := List.getElem?_eq_some_iff.mp hx
      by_cases hxb : x = b
      · simp only [if_pos hxb]
        cases rest with
        | nil => exact absurd hin (by simp at hlt; omega)
        | cons c cs =>
          exact ih buf base (i + 1) (by simp only [List.length_cons] at hlt ⊢; omega)
            (by simp)
      · simp only [if_neg hxb]
        exact Or.inr trivial

theorem vs_length_eq (S : CSet) (v : Nat) : (S.vs v).length = S.bytesPerValue := by
  simp [CSet.vs]

theorem fromBuffer_ok_facts (buf : List Nat) (S : CSet) (h : fromBuffer buf = .ok S) :
    S.buffer = buf ∧ S.valuesOffset ≤ buf.length := by
  simp only [fromBuffer] at h
  split at h
  · exact absurd h (by simp)
  · split at h
    · exact absurd h (by simp)
    · split at h
      · exact absurd h (by simp)
      · rename_i h1 h2 h3
        have hS := Except.ok.inj h
        rw [← hS]
        refine ⟨rfl, ?_⟩
        simp only [CSet.valuesOffset]
        omega

theorem containsGo_all_zero (vs : List Nat) :
    ∀ (buf : List Nat) (base i : Nat),
      (∀ j, j < vs.length → buf[base + i + j]? = some 0) →
      containsGo buf base i vs = .ok (vs.all (· == 0)) := by
  induction vs with
  | nil => intro buf base i _; rfl
  | cons b bs ih =>
    intro buf base i hz
    have h0 : buf[base + i]? = some 0 := by
      have := hz 0 (by simp)
      simpa using this
    have hshift : ∀ j, j < bs.length → buf[base + (i + 1) + j]? = some 0 := by
      intro j hj
      have := hz (j + 1) (by simp; omega)
      have harith : base + i + (j + 1) = base + (i + 1) + j := by omega
      rwa [harith] at this
    unfold containsGo
    simp only [h0]
    by_cases hb : (0 : Nat) = b
    · subst hb
      simp only [if_pos rfl, ih buf base (i + 1) hshift, List.all_cons]
      norm_num
    · have hb' : (b == 0) = false := by
        simp [Ne.symm hb]
      simp only [if_neg hb, List.all_cons, hb', Bool.false_and]

theorem vs3_inj (v w : Nat) (hv : v < 16777216) (hw : w < 16777216)
    (h : [(v >>> 16) &&& 255, (v >>> 8) &&& 255, v &&& 255]
       = [(w >>> 16) &&& 255, (w >>> 8) &&& 255, w &&& 255]) : v = w := by
  have e16 : ∀ x : Nat, x >>> 16 = x / 65536 := fun x => by
    rw [Nat.shiftRight_eq_div_pow]
  have e8 : ∀ x : Nat, x >>> 8 = x / 256 := fun x => by
    rw [Nat.shiftRight_eq_div_pow]
  simp only [land255, e16, e8, List.cons.injEq, and_true] at h
  obtain ⟨h1, h2, h3⟩ := h
  omega

theorem fp3_inj (v w : Nat) (hv : v < 16777216) (hw : w < 16777216)
    (h : fp3 v = fp3 w) : v = w :=
  vs3_inj v w hv hw h

theorem fp3_bytes_lt (v : Nat) : ∀ b ∈ fp3 v, b < 256 := by
  intro b hb
  simp only [fp3, List.mem_cons, List.not_mem_nil, or_false] at hb
  rcases hb with h | h | h <;>
    (subst h; rw [land255]; exact Nat.mod_lt _ (by norm_num))

theorem fp3_length (v : Nat) : (fp3 v).length = 3 := rfl

theorem fp3_zero : fp3 0 = [0, 0, 0] := rfl

theorem fpOf_lt (hash : String → Nat) (x : String) : fpOf hash x < 16777216 :=
  Nat.mod_lt _ (by norm_num)

theorem slotOf_le (hash : String → Nat) (x : String) : slotOf hash x ≤ 765 := by
  unfold slotOf
  have := Nat.mod_lt (hash x % 2 ^ 32) (show 0 < 256 by norm_num)
  omega

theorem valuesOffset_shape (S : CSet) (hS : defaultShape S) : S.valuesOffset = 5 := by
  obtain ⟨hp, hq, -, -, -, -⟩ := hS
  unfold CSet.valuesOffset
  rw [hp, hq]
  decide

theorem bytesPerValue_shape (S : CSet) (hS : defaultShape S) : S.bytesPerValue = 3 := by
  obtain ⟨hp, hq, -, -, -, hb4⟩ := hS
  unfold CSet.bytesPerValue readBytes
  rw [hp, hq]
  rw [show List.range 1 = [0] by simp [List.range_succ]]
  simp only [List.foldl_cons, List.foldl_nil, Nat.zero_or]
  rw [show ((1:Nat) - 0 - 1) * 8 = 0 by norm_num, Nat.shiftLeft_zero]
  rw [show Constants.MINIMUM_BYTE_LENGTH + 2 + 0 = 4 by decide]
  rw [List.getD_eq_getElem?_getD, hb4]
  rfl

theorem kv_shape (hash : String → Nat) (S : CSet) (hS : defaultShape S) (x : String) :
    S.kv hash x = (slotOf hash x, fpOf hash x) := by
  have him : S.indexMask = 255 := hS.2.2.1
  have hvm : S.valueMask = 16777215 := hS.2.2.2.1
  simp only [CSet.kv, him, hvm, bytesPerValue_shape S hS, jsAnd32_255, jsAnd32_fp]
  rfl

theorem vs_shape (S : CSet) (hS : defaultShape S) (v : Nat) : S.vs v = fp3 v := by
  unfold CSet.vs
  rw [bytesPerValue_shape S hS]
  rfl

theorem shape_write (S : CSet) (hS : defaultShape S) (base i : Nat) (hbase : 5 ≤ base)
    (vs : List Nat) :
    defaultShape { S with buffer := (writeSeq S.buffer base i vs).2 } := by
  obtain ⟨hp, hq, him, hvm, hlen, hb4⟩ := hS
  refine ⟨hp, hq, him, hvm, ?_, ?_⟩
  · simpa [writeSeq_length] using hlen
  · show ((writeSeq S.buffer base i vs).2)[4]? = some 3
    rw [writeSeq_getElem?_lt vs _ _ _ _ (by omega)]
    exact hb4

theorem add_shape (hash : String → Nat) (S : CSet) (hS : defaultShape S) (x : String) :
    S.add hash x
      = ((writeSeq S.buffer (5 + slotOf hash x) 0 (fp3 (fpOf hash x))).1,
         { S with buffer := (writeSeq S.buffer (5 + slotOf hash x) 0 (fp3 (fpOf hash x))).2 }) := by
  simp only [CSet.add, kv_shape hash S hS, valuesOffset_shape S hS, vs_shape S hS]

theorem contains_shape (hash : String → Nat) (S : CSet) (hS : defaultShape S) (x : String) :
    CSet.contains hash S x
      = containsGo S.buffer (5 + slotOf hash x) 0 (fp3 (fpOf hash x)) := by
  simp only [CSet.contains, kv_shape hash S hS, valuesOffset_shape S hS, vs_shape S hS]

theorem shape_add (hash : String → Nat) (S : CSet) (hS : defaultShape S) (x : String) :
    defaultShape (S.add hash x).2 := by
  rw [add_shape hash S hS x]
  exact shape_write S hS _ 0 (by omega) _

theorem add_then_contains (hash : String → Nat) (S : CSet) (hS : defaultShape S) (x : String) :
    (S.add hash x).1 = none ∧
    CSet.contains hash (S.add hash x).2 x = .ok true := by
  have hlen : S.buffer.length = 773 := hS.2.2.2.2.1
  have hbd : (5 + slotOf hash x) + 0 + (fp3 (fpOf hash x)).length ≤ S.buffer.length := by
    rw [fp3_length, hlen]
    have := slotOf_le hash x
    omega
  obtain ⟨h1, h2⟩ :=
    write_contains (fp3 (fpOf hash x)) S.buffer (5 + slotOf hash x) 0 hbd
      (fp3_bytes_lt _)
  have hadd := add_shape hash S hS x
  have hS' := shape_add hash S hS x
  rw [hadd] at hS' ⊢
  refine ⟨h1, ?_⟩
  rw [contains_shape hash _ hS' x]
  exact h2

theorem shape_fresh : defaultShape freshDefault := by
  refine ⟨rfl, rfl, by decide, rfl, by decide, by decide⟩

theorem fresh_buffer_eq :
    freshDefault.buffer = [16, 33, 1, 0, 3] ++ List.replicate 768 0 := by decide

theorem fresh_region_zero (j : Nat) (h5 : 5 ≤ j) (hj : j < 773) :
    freshDefault.buffer[j]? = some 0 := by
  rw [fresh_buffer_eq]
  rw [List.getElem?_append_right (by simpa using h5)]
  have : j - ([16, 33, 1, 0, 3] : List Nat).length < 768 := by simp; omega
  simpa using List.getElem?_replicate_of_lt this

theorem contains_fresh (hash : String → Nat) (x : String) :
    CSet.contains hash freshDefault x = .ok ((fp3 (fpOf hash x)).all (· == 0)) := by
  rw [contains_shape hash freshDefault shape_fresh x]
  apply containsGo_all_zero
  intro j hj
  rw [fp3_length] at hj
  have hs := slotOf_le hash x
  exact fresh_region_zero _ (by omega) (by omega)

theorem fp3_all_zero_ne (v : Nat) (hv : v < 16777216) (hne : v ≠ 0) :
    (fp3 v).all (· == 0) = false := by
  cases h : (fp3 v).all (· == 0)
  · rfl
  · exfalso
    apply hne
    simp only [fp3, List.all_cons, List.all_nil, Bool.and_true, Bool.and_eq_true,
      beq_iff_eq] at h
    obtain ⟨h1, h2, h3⟩ := h
    have e16 : v >>> 16 = v / 65536 := by rw [Nat.shiftRight_eq_div_pow]
    have e8 : v >>> 8 = v / 256 := by rw [Nat.shiftRight_eq_div_pow]
    rw [land255, e16] at h1
    rw [land255, e8] at h2
    rw [land255] at h3
    omega

theorem fp3_map_zero (v : Nat) : (fp3 v).map (fun _ => 0) = [0, 0, 0] := rfl

theorem remove_shape_true (hash : String → Nat) (S : CSet) (hS : defaultShape S)
    (x : String) (hc : CSet.contains hash S x = .ok true) :
    S.remove hash x
      = ((writeSeq S.buffer (5 + slotOf hash x) 0 [0, 0, 0]).1,
         { S with buffer := (writeSeq S.buffer (5 + slotOf hash x) 0 [0, 0, 0]).2 }) := by
  simp only [CSet.remove, hc, kv_shape hash S hS, valuesOffset_shape S hS,
    vs_shape S hS, fp3_map_zero]

theorem remove_noop (hash : String → Nat) (S : CSet) (x : String)
    (hc : CSet.contains hash S x = .ok false) :
    S.remove hash x = (none, S) := by
  simp only [CSet.remove, hc]

theorem setFirst_getSecond (b v : Nat) :
    NibbleView.getSecond (NibbleView.setFirst b v) = NibbleView.getSecond b := by
  apply Nat.eq_of_testBit_eq
  intro i
  simp only [NibbleView.getSecond, NibbleView.setFirst, Nat.testBit_and,
    Nat.testBit_or, Nat.testBit_shiftLeft, Nat.testBit_shiftRight, tb255]
  by_cases h4 : i < 4
  · have e1 : ¬ (i ≥ 4) := by omega
    have e2 : 4 + i < 8 := by omega
    have e3 : i < 8 := by omega
    simp [h4, e1, e2, e3]
  · have e2 : ¬ (4 + i < 8) := by omega
    simp [e2]

theorem setSecond_getFirst (b v : Nat) :
    NibbleView.getFirst (NibbleView.setSecond b v) = NibbleView.getFirst b := by
  apply Nat.eq_of_testBit_eq
  intro i
  simp only [NibbleView.getFirst, NibbleView.getSecond, NibbleView.setSecond,
    Nat.testBit_and, Nat.testBit_or, Nat.testBit_shiftLeft, Nat.testBit_shiftRight,
    tb15]
  have ega : 4 + i ≥ 4 := by omega
  have el4 : ¬ (4 + i < 4) := by omega
  simp [ega, el4, Nat.add_sub_cancel_left]

theorem setFirst_getFirst (b v : Nat) :
    NibbleView.getFirst (NibbleView.setFirst b v) = v % 16 := by
  apply Nat.eq_of_testBit_eq
  intro i
  simp only [NibbleView.getFirst, NibbleView.getSecond, NibbleView.setFirst,
    Nat.testBit_and, Nat.testBit_or, Nat.testBit_shiftLeft, Nat.testBit_shiftRight,
    tb255, tbMod16]
  have ega : 4 + i ≥ 4 := by omega
  have e88 : ¬ (4 + (4 + i) < 8) := by omega
  by_cases h4 : i < 4
  · have e2 : 4 + i < 8 := by omega
    simp [ega, e2, e88, h4, Nat.add_sub_cancel_left, Bool.and_comm]
  · have e2 : ¬ (4 + i < 8) := by omega
    simp [e2, e88, h4]

theorem setSecond_getSecond (b v : Nat) :
    NibbleView.getSecond (NibbleView.setSecond b v) = v % 16 := by
  apply Nat.eq_of_testBit_eq
  intro i
  simp only [NibbleView.getFirst, NibbleView.getSecond, NibbleView.setSecond,
    Nat.testBit_and, Nat.testBit_or, Nat.testBit_shiftLeft, Nat.testBit_shiftRight,
    tb15, tb255, tbMod16]
  by_cases h4 : i < 4
  · have e1 : ¬ (i ≥ 4) := by omega
    have e3 : 4 + i < 8 := by omega
    simp [h4, e1, e3, Bool.and_comm]
  · have e3 : ¬ (4 + i < 8) := by omega
    simp [h4, e3]

/-- C3: membership after insertion — for every hash function and every
non-empty string `x`, immediately after `add(x)` on a freshly constructed
default instance (no intervening colliding add), `add` succeeded without error
and `contains(x)` returns true. -/
theorem c3_membership_after_insertion (hash : String → Nat) (x : String)
    (hx : x ≠ "") :
    (CSet.add hash freshDefault x).1 = none ∧
    CSet.contains hash ((CSet.add hash freshDefault x).2) x = .ok true :=
  add_then_contains hash freshDefault shape_fresh x

/-- Witness for C3 at the concrete hash `hashLen` and key `"a"`. -/
theorem c3_witness :
    "a" ≠ "" ∧
    ((CSet.add hashLen freshDefault "a").1 = none ∧
     CSet.contains hashLen ((CSet.add hashLen freshDefault "a").2) "a" = .ok true) :=
  ⟨by decide, c3_membership_after_insertion hashLen "a" (by decide)⟩

/-- Counterexample for C4 as stated: it is not the case that a freshly
constructed default instance answers `contains(x) = false` for every hash
function and every string `x` — under the concrete hash `hashZero` the key
`"a"` has the all-zero fingerprint and a fresh instance reports it present. -/
theorem c4_counterexample :
    ¬ (∀ (hash : String → Nat) (x : String),
        CSet.contains hash freshDefault x = .ok false) := by
  intro hAll
  have h1 : CSet.contains hashZero freshDefault "a" = .ok true := by decide
  have h2 := hAll hashZero "a"
  rw [h1] at h2
  exact Bool.noConfusion (Except.ok.inj h2)

/-- C4 (amended): a freshly constructed default instance answers
`contains(x) = false` for every key `x` whose masked double-hash fingerprint
is nonzero (a zero fingerprint is indistinguishable from the all-zero
empty-slot sentinel, see C10). -/
theorem c4_default_emptiness_amended (hash : String → Nat) (x : String)
    (hv : (freshDefault.kv hash x).2 ≠ 0) :
    CSet.contains hash freshDefault x = .ok false := by
  have hfp : fpOf hash x ≠ 0 := by
    intro h
    apply hv
    rw [kv_shape hash freshDefault shape_fresh x]
    exact h
  rw [contains_fresh hash x, fp3_all_zero_ne _ (fpOf_lt hash x) hfp]

/-- Witness for the amended C4 at the concrete hash `hashLen` and key `"a"`
(whose fingerprint is 1). -/
theorem c4_witness :
    (freshDefault.kv hashLen "a").2 ≠ 0 ∧
    CSet.contains hashLen freshDefault "a" = .ok false :=
  ⟨by decide, c4_default_emptiness_amended hashLen "a" (by decide)⟩

/-- C5: collision safety of removal — for all distinct keys `x` and `y`
mapping to the same slot offset but with different fingerprints, after
`add(x)` then `add(y)` on a fresh default instance, `remove(x)` is a verified
no-op returning the set unchanged, and `contains(y)` remains true. -/
theorem c5_collision_safe_removal (hash : String → Nat) (x y : String)
    (hxy : x ≠ y)
    (hk : (freshDefault.kv hash x).1 = (freshDefault.kv hash y).1)
    (hv : (freshDefault.kv hash x).2 ≠ (freshDefault.kv hash y).2) :
    CSet.remove hash ((CSet.add hash ((CSet.add hash freshDefault x).2) y).2) x
      = (none, (CSet.add hash ((CSet.add hash freshDefault x).2) y).2) ∧
    CSet.contains hash ((CSet.add hash ((CSet.add hash freshDefault x).2) y).2) y
      = .ok true := by
  have hS1 : defaultShape (CSet.add hash freshDefault x).2 :=
    shape_add hash freshDefault shape_fresh x
  set S1 := (CSet.add hash freshDefault x).2 with hS1def
  have hkk : slotOf hash x = slotOf hash y := by
    rw [kv_shape hash freshDefault shape_fresh x,
      kv_shape hash freshDefault shape_fresh y] at hk
    exact hk
  have hvv : fpOf hash x ≠ fpOf hash y := by
    rw [kv_shape hash freshDefault shape_fresh x,
      kv_shape hash freshDefault shape_fresh y] at hv
    exact hv
  have hadd2 := add_shape hash S1 hS1 y
  have hS2 := shape_add hash S1 hS1 y
  have hlen1 : S1.buffer.length = 773 := hS1.2.2.2.2.1
  have hcx : CSet.contains hash (CSet.add hash S1 y).2 x = .ok false := by
    rw [hadd2] at hS2 ⊢
    rw [contains_shape hash _ hS2 x, hkk]
    exact write_contains_ne (fp3 (fpOf hash x)) (fp3 (fpOf hash y)) S1.buffer
      (5 + slotOf hash y) 0
      (by rw [fp3_length, hlen1]; have := slotOf_le hash y; omega)
      (by rw [fp3_length, fp3_length])
      (fp3_bytes_lt _)
      (fun he => hvv (fp3_inj _ _ (fpOf_lt hash x) (fpOf_lt hash y) he))
  exact ⟨remove_noop hash _ x hcx, (add_then_contains hash S1 hS1 y).2⟩

/-- Witness for C5 at the concrete hash `hashColl`, under which `"a"` and
`"b"` land in slot 0 with fingerprints 7 and 9. -/
theorem c5_witness :
    "a" ≠ "b" ∧
    (freshDefault.kv hashColl "a").1 = (freshDefault.kv hashColl "b").1 ∧
    (freshDefault.kv hashColl "a").2 ≠ (freshDefault.kv hashColl "b").2 ∧
    (CSet.remove hashColl
        ((CSet.add hashColl ((CSet.add hashColl freshDefault "a").2) "b").2) "a"
      = (none, (CSet.add hashColl ((CSet.add hashColl freshDefault "a").2) "b").2) ∧
     CSet.contains hashColl
        ((CSet.add hashColl ((CSet.add hashColl freshDefault "a").2) "b").2) "b"
      = .ok true) :=
  ⟨by decide, by decide, by decide,
    c5_collision_safe_removal hashColl "a" "b" (by decide) (by decide) (by decide)⟩

/-- C6: type-error atomicity — for every non-string argument, each of `add`,
`remove` and `contains` throws the string-values TypeError and returns the
set's state entirely unchanged: `_check` fails before any mutation. -/
theorem c6_type_error_atomicity (hash : String → Nat) (S : CSet) (e : JSVal)
    (he : e.isString = false) :
    addJS hash S e = (some (.typeError typeErrMsg), S) ∧
    removeJS hash S e = (some (.typeError typeErrMsg), S) ∧
    containsJS hash S e = .error (.typeError typeErrMsg) := by
  cases e <;> simp_all [addJS, removeJS, containsJS, JSVal.isString]

/-- Witness for C6 at the boolean argument `true` on a fresh default set. -/
theorem c6_witness :
    (JSVal.vbool true).isString = false ∧
    addJS hashLen freshDefault (JSVal.vbool true)
      = (some (.typeError typeErrMsg), freshDefault) :=
  ⟨rfl, (c6_type_error_atomicity hashLen freshDefault (JSVal.vbool true) rfl).1⟩

/-- C9: nibble codec — writing one nibble of a byte preserves the other
nibble, and an oversized value is masked to its low 4 bits, so the written
nibble reads back as `v mod 16`. -/
theorem c9_nibble_codec (b v : Nat) (hb : b < 256) :
    NibbleView.getSecond (NibbleView.setFirst b v) = NibbleView.getSecond b ∧
    NibbleView.getFirst (NibbleView.setSecond b v) = NibbleView.getFirst b ∧
    NibbleView.getFirst (NibbleView.setFirst b v) = v % 16 ∧
    NibbleView.getSecond (NibbleView.setSecond b v) = v % 16 :=
  ⟨setFirst_getSecond b v, setSecond_getFirst b v, setFirst_getFirst b v,
    setSecond_getSecond b v⟩

/-- Witness for C9 at the byte 171 (0xAB) and the oversized value 30. -/
theorem c9_witness :
    (171 : Nat) < 256 ∧
    (NibbleView.getSecond (NibbleView.setFirst 171 30) = NibbleView.getSecond 171 ∧
     NibbleView.getFirst (NibbleView.setSecond 171 30) = NibbleView.getFirst 171 ∧
     NibbleView.getFirst (NibbleView.setFirst 171 30) = 30 % 16 ∧
     NibbleView.getSecond (NibbleView.setSecond 171 30) = 30 % 16) :=
  ⟨by decide, c9_nibble_codec 171 30 (by decide)⟩

/-- C10: zero-fingerprint ambiguity — for every key whose masked double-hash
fingerprint is 0, a fresh default instance already reports it present, and
after `add(key)` followed by `remove(key)` it is still reported present (the
all-zero empty-slot sentinel equals the stored fingerprint). -/
theorem c10_zero_fingerprint_ambiguity (hash : String → Nat) (x : String)
    (hv : (freshDefault.kv hash x).2 = 0) :
    CSet.contains hash freshDefault x = .ok true ∧
    CSet.contains hash
      ((CSet.remove hash ((CSet.add hash freshDefault x).2) x).2) x = .ok true := by
  have hfp : fpOf hash x = 0 := by
    rw [kv_shape hash freshDefault shape_fresh x] at hv
    exact hv
  have hS1 : defaultShape (CSet.add hash freshDefault x).2 :=
    shape_add hash freshDefault shape_fresh x
  set S1 := (CSet.add hash freshDefault x).2 with hS1def
  have hc1 : CSet.contains hash S1 x = .ok true :=
    (add_then_contains hash freshDefault shape_fresh x).2
  have hrem := remove_shape_true hash S1 hS1 x hc1
  have hlen1 : S1.buffer.length = 773 := hS1.2.2.2.2.1
  have hS2 : defaultShape
      { S1 with buffer := (writeSeq S1.buffer (5 + slotOf hash x) 0 [0, 0, 0]).2 } :=
    shape_write S1 hS1 _ 0 (by omega) _
  constructor
  · rw [contains_fresh hash x, hfp, fp3_zero]
    rfl
  · rw [hrem]
    show CSet.contains hash
      { S1 with buffer := (writeSeq S1.buffer (5 + slotOf hash x) 0 [0, 0, 0]).2 } x
        = .ok true
    rw [contains_shape hash _ hS2 x, hfp, fp3_zero]
    exact (write_contains [0, 0, 0] S1.buffer (5 + slotOf hash x) 0
      (by simp only [List.length_cons, List.length_nil, hlen1]
          have := slotOf_le hash x
          omega)
      (by decide)).2

/-- Witness for C10 at the concrete hash `hashZero`, under which every key,
in particular `"a"`, has fingerprint 0. -/
theorem c10_witness :
    (freshDefault.kv hashZero "a").2 = 0 ∧
    (CSet.contains hashZero freshDefault "a" = .ok true ∧
     CSet.contains hashZero
       ((CSet.remove hashZero ((CSet.add hashZero freshDefault "a").2) "a").2) "a"
       = .ok true) :=
  ⟨by decide, c10_zero_fingerprint_ambiguity hashZero "a" (by decide)⟩

/-- C1 (code bug): the round-trip contract fails on the code.  For a freshly
constructed default set, `decode(encode(S))` succeeds but yields a set that
reports every key as contained (its rebuilt buffer has byte 1 = 0, so
`p = q = 0` and `bytesPerValue = 0`, making the `every` loop vacuous) while
the original reports `"a"` absent, and re-encoding the decoded set is not
byte-for-byte identical to the original digest.  The decode loop writes byte
`i` (even `i` only, `i < L/2`) from hex characters `i, i+1` instead of byte
`j` from characters `2j, 2j+1`. -/
theorem c1_roundtrip_code_bug :
    (okSet (decode (CSet.encode freshDefault))).map
        (fun S2 => CSet.contains hashLen S2 "a") = some (.ok true) ∧
    CSet.contains hashLen freshDefault "a" = .ok false ∧
    (okSet (decode (CSet.encode freshDefault))).map CSet.encode
      ≠ some (CSet.encode freshDefault) :=
  ⟨by decide, by decide, by decide⟩

/-- C2 (code bug): the decode algorithm does not fill byte `j` from hex
characters `2j, 2j+1`.  On the digest of a fresh default set (whose buffer
starts `16, 33, ...`, hex `"1021..."`), the rebuilt buffer has byte 1 = 0
(never written: the loop index steps by two) while the value 33 encoded by hex
characters 2 and 3 lands at byte index 2; the rebuilt buffer differs from the
encoded one.  Only the final clause of the claim holds: the result is passed
through the same from-buffer construction path (definitional equality). -/
theorem c2_decode_loop_code_bug :
    (decodeRaw (CSet.encode freshDefault)).getD 1 0 = 0 ∧
    (decodeRaw (CSet.encode freshDefault)).getD 2 0 = 33 ∧
    freshDefault.buffer.getD 1 0 = 33 ∧
    decodeRaw (CSet.encode freshDefault) ≠ freshDefault.buffer ∧
    decode (CSet.encode freshDefault) = fromBuffer (decodeRaw (CSet.encode freshDefault)) :=
  ⟨by decide, by decide, by decide, by decide, rfl⟩

/-- Counterexample for C7 as stated: a falsy non-buffer constructor argument
(the number 0) does not throw — the `buffer || this.getBuffer()` fallback
produces a fresh default instance instead. -/
theorem c7_counterexample : construct (JSVal.vnum 0) = .ok freshDefault := rfl

/-- C7 (amended): a truthy non-ArrayBuffer constructor argument throws the
input-type error; an ArrayBuffer shorter than the minimum header length (2
bytes) throws the too-short error whose message names that minimum, producing
no instance in either case; a falsy argument is treated as omitted and yields
a fresh default instance. -/
theorem c7_construction_rejection_amended :
    (∀ e : JSVal, e.truthy = true → (∀ bs, e ≠ .vbuf bs) →
      construct e = .error (.typeError
        "First argument to CompressedSet constructor must be an ArrayBuffer")) ∧
    (∀ bs : List Nat, bs.length < Constants.MINIMUM_BYTE_LENGTH →
      construct (.vbuf bs) = .error (.typeError
        "ArrayBuffer argument to CompressedSet constructor must have a byteLength of at least 2")) ∧
    (∀ e : JSVal, e.truthy = false → construct e = .ok freshDefault) := by
  refine ⟨?_, ?_, ?_⟩
  · intro e ht hnb
    cases e with
    | vbuf bs => exact absurd rfl (hnb bs)
    | vstr s => simp_all [construct, JSVal.truthy]
    | vbool b => simp_all [construct, JSVal.truthy]
    | vnum n => simp_all [construct, JSVal.truthy]
    | vobj => simp_all [construct, JSVal.truthy]
    | varr => simp_all [construct, JSVal.truthy]
    | vundef => simp_all [construct, JSVal.truthy]
  · intro bs hlen
    show fromBuffer bs = _
    simp only [fromBuffer]
    rw [if_pos hlen]
    rfl
  · intro e hf
    cases e <;> simp_all [construct, JSVal.truthy]

/-- Witness for the amended C7: `true` is a truthy non-buffer, the empty
buffer is shorter than the 2-byte minimum, and `undefined` is falsy. -/
theorem c7_witness :
    (JSVal.vbool true).truthy = true ∧
    ([] : List Nat).length < Constants.MINIMUM_BYTE_LENGTH ∧
    JSVal.vundef.truthy = false ∧
    construct (JSVal.vbool true) = .error (.typeError
      "First argument to CompressedSet constructor must be an ArrayBuffer") ∧
    construct (JSVal.vbuf []) = .error (.typeError
      "ArrayBuffer argument to CompressedSet constructor must have a byteLength of at least 2") ∧
    construct JSVal.vundef = .ok freshDefault :=
  ⟨rfl, by decide, rfl,
    c7_construction_rejection_amended.1 (JSVal.vbool true) rfl
      (fun bs h => JSVal.noConfusion h),
    c7_construction_rejection_amended.2.1 [] (by decide),
    c7_construction_rejection_amended.2.2 JSVal.vundef rfl⟩

/-- Counterexample for C8 as stated: the buffer `[16, 33, 0]` meets the
minimum header length (2) and is shorter than its declared total length
(header + p + q + numValues*bytesPerValue with p = 2, q = 1), yet construction
does not succeed — creating the `DataView` for the `numValues` field already
raises a RangeError. -/
theorem c8_counterexample :
    Constants.MINIMUM_BYTE_LENGTH ≤ ([16, 33, 0] : List Nat).length ∧
    fromBuffer [16, 33, 0] = .error .rangeError :=
  ⟨by decide, rfl⟩

/-- C8 (amended): construction performs no length validation against the
declared `numValues x bytesPerValue` total.  For every buffer long enough to
hold the header and the two size fields (`2 + p + q` bytes), construction
succeeds; for every buffer meeting the 2-byte minimum but too short for the
size fields themselves, construction already fails with a RangeError from
`DataView` creation.  For every constructed set and every key whose slot
extends past the end of the buffer, the shortfall surfaces as a fatal
out-of-bounds RangeError on the query: `add` faults, `contains` either faults
or short-circuits to false on an in-bounds mismatch (never reporting the key
present), and `remove` either faults or is a no-op returning the set
unchanged. -/
theorem c8_unvalidated_length_amended :
    (∀ buf : List Nat, Constants.MINIMUM_BYTE_LENGTH ≤ buf.length →
      Constants.MINIMUM_BYTE_LENGTH + NibbleView.getFirst (buf.getD 1 0)
        + NibbleView.getSecond (buf.getD 1 0) ≤ buf.length →
      ∃ S, fromBuffer buf = .ok S) ∧
    (∀ buf : List Nat, Constants.MINIMUM_BYTE_LENGTH ≤ buf.length →
      buf.length < Constants.MINIMUM_BYTE_LENGTH + NibbleView.getFirst (buf.getD 1 0)
        + NibbleView.getSecond (buf.getD 1 0) →
      fromBuffer buf = .error .rangeError) ∧
    (∀ (buf : List Nat) (S : CSet) (hash : String → Nat) (x : String),
      fromBuffer buf = .ok S →
      S.buffer.length
        < S.valuesOffset + (S.kv hash x).1 + (S.vs (S.kv hash x).2).length →
      (S.add hash x).1 = some .rangeError ∧
      (CSet.contains hash S x = .error .rangeError ∨
       CSet.contains hash S x = .ok false) ∧
      (S.remove hash x = (some .rangeError, S) ∨ S.remove hash x = (none, S))) := by
  refine ⟨?_, ?_, ?_⟩
  · intro buf h2 hpq
    simp only [fromBuffer]
    rw [if_neg (by omega), if_neg (by omega), if_neg (by omega)]
    exact ⟨_, rfl⟩
  · intro buf h2 hlt
    simp only [fromBuffer]
    rw [if_neg (by omega)]
    by_cases h1 : Constants.MINIMUM_BYTE_LENGTH
        + NibbleView.getFirst (buf.getD 1 0) > buf.length
    · rw [if_pos h1]
    · rw [if_neg h1, if_pos (by omega)]
  · intro buf S hash x hok hoob
    obtain ⟨hbuf, hvo⟩ := fromBuffer_ok_facts buf S hok
    have hvo' : S.valuesOffset ≤ S.buffer.length := by rw [hbuf]; exact hvo
    have hn : (S.vs (S.kv hash x).2).length = S.bytesPerValue := vs_length_eq S _
    by_cases hbpv : S.bytesPerValue = 0
    · exfalso
      have hk : (S.kv hash x).1 = 0 := by
        simp [CSet.kv, hbpv]
      rw [hk, hn, hbpv] at hoob
      omega
    · have hvsne : S.vs (S.kv hash x).2 ≠ [] := by
        intro he
        rw [he] at hn
        exact hbpv hn.symm
      have hcd : CSet.contains hash S x = .error .rangeError ∨
          CSet.contains hash S x = .ok false := by
        simp only [CSet.contains]
        exact containsGo_oob _ S.buffer _ 0 (by omega) hvsne
      refine ⟨?_, hcd, ?_⟩
      · simp only [CSet.add]
        exact writeSeq_err _ S.buffer _ 0 (by omega) hvsne
      · rcases hcd with herr | hfalse
        · left
          simp only [CSet.remove, herr]
        · right
          simp only [CSet.remove, hfalse]

/-- Witness for the amended C8: the 5-byte buffer `[16, 33, 1, 0, 3]` (header
and size fields present, value region missing) constructs successfully as
`shortSample` and every operation on the key `"a"` faults past the end, while
the 3-byte buffer `[16, 33, 0]` (too short for its declared size fields)
already fails at construction. -/
theorem c8_witness :
    Constants.MINIMUM_BYTE_LENGTH ≤ ([16, 33, 1, 0, 3] : List Nat).length ∧
    Constants.MINIMUM_BYTE_LENGTH ≤ ([16, 33, 0] : List Nat).length ∧
    ([16, 33, 0] : List Nat).length < Constants.MINIMUM_BYTE_LENGTH
      + NibbleView.getFirst (([16, 33, 0] : List Nat).getD 1 0)
      + NibbleView.getSecond (([16, 33, 0] : List Nat).getD 1 0) ∧
    fromBuffer [16, 33, 1, 0, 3] = .ok shortSample ∧
    shortSample.buffer.length < shortSample.valuesOffset
      + (shortSample.kv hashLen "a").1
      + (shortSample.vs (shortSample.kv hashLen "a").2).length ∧
    (∃ S, fromBuffer [16, 33, 1, 0, 3] = .ok S) ∧
    fromBuffer [16, 33, 0] = .error .rangeError ∧
    ((shortSample.add hashLen "a").1 = some .rangeError ∧
     (CSet.contains hashLen shortSample "a" = .error .rangeError ∨
      CSet.contains hashLen shortSample "a" = .ok false) ∧
     (shortSample.remove hashLen "a" = (some .rangeError, shortSample) ∨
      shortSample.remove hashLen "a" = (none, shortSample))) :=
  ⟨by decide, by decide, by decide, by decide, by decide,
   c8_unvalidated_length_amended.1 [16, 33, 1, 0, 3] (by decide) (by decide),
   c8_unvalidated_length_amended.2.1 [16, 33, 0] (by decide) (by decide),
   c8_unvalidated_length_amended.2.2 [16, 33, 1, 0, 3] shortSample hashLen "a"
     (by decide) (by decide)⟩

end CompressedSet
